import Mathlib

/-!
Shallow embedding of the latency tracker engine
(`src/latency_tracker.c` and `src/wrapper/ht.h`).

The hash-table operations are taken from the plain `linux/hashtable.h`
variant of `wrapper/ht.h` (the `#else /* RHASHTABLE */` branch), which is
the variant the specification describes.  The index is modelled as a list
of live event records in bucket-insertion order (`hash_add` prepends to
its bucket's chain); the per-bucket chain for a hash `k` is the sublist of
records whose cached `hkey` equals `k`.  The table-size constant
(`DEFAULT_LATENCY_TABLE_SIZE`, declared in `tracker_private.h`, which is
not part of the sources) only coarsens which records share a physical
bucket; since every retirement decision additionally requires a full-key
`match_fct` test, the observable behaviour does not depend on it.

Machine integers are modelled as `Nat` with explicit truncation where the
C code relies on fixed width: `u64` subtraction (`now - s->start_ts`)
wraps modulo `2 ^ 64`, and hash values are `u32`, i.e. reduced modulo
`2 ^ 32`.

User callbacks may not mutate engine state (the engine hands them a
transient pointer); each operation therefore returns, besides the new
tracker state, the list of event snapshots passed to `s->cb`, in
invocation order.
-/

set_option autoImplicit false

namespace LatencyTracker

/-- Wrap-around of 64-bit unsigned arithmetic. -/
def U64 : Nat := 2 ^ 64

/-- Wrap-around of 32-bit unsigned arithmetic. -/
def U32 : Nat := 2 ^ 32

/-- Unsigned 64-bit subtraction `a - b`, as computed on `u64` values. -/
def u64sub (a b : Nat) : Nat :=
  (a % U64 + U64 - b % U64) % U64

/-- Modelled from the spec: `LATENCY_TRACKER_MAX_KEY_SIZE` is declared in
`latency_tracker.h`, which is not among the sources; the spec only
requires a fixed compile-time bound on the key length.  The concrete
value is irrelevant to every claim, which only compare `key_len` against
the bound. -/
def LATENCY_TRACKER_MAX_KEY_SIZE : Nat := 128

/-- `#define DEFAULT_MAX_ALLOC_EVENTS 100` (latency_tracker.c line 41). -/
def DEFAULT_MAX_ALLOC_EVENTS : Nat := 100

/-- Modelled from the spec: the `cb_flag` enumeration
(`LATENCY_TRACKER_CB_*`) is declared in `latency_tracker.h`, which is not
among the sources.  The spec lists the close reasons
`{NONE, EXPLICIT_CLOSE, TIMEOUT, GARBAGE_COLLECTED, DUPLICATE_KEY}`;
`unset` is the zeroed state of a pooled record, `explicit_close` is
`LATENCY_TRACKER_CB_NORMAL`, `timeout_fired` is
`LATENCY_TRACKER_CB_TIMEOUT`, `garbage_collected` is
`LATENCY_TRACKER_CB_GC` and `duplicate_key` is
`LATENCY_TRACKER_CB_UNIQUE`. -/
inductive CbFlag where
  | unset
  | explicit_close
  | timeout_fired
  | garbage_collected
  | duplicate_key
  deriving DecidableEq, Repr

/-- One record of `struct latency_tracker_event`.  `id` models the
record's address (it survives `memset`); `hasCb` models whether the `cb`
function pointer is non-NULL; `timerArmed` models a pending per-event
timer.  The `key` field is the fixed `LATENCY_TRACKER_MAX_KEY_SIZE`-byte
buffer. -/
structure Event where
  id : Nat
  hkey : Nat
  key : List Nat
  start_ts : Nat
  end_ts : Nat
  thresh : Nat
  timeout : Nat
  cb_flag : CbFlag
  cb_out_id : Nat
  hasCb : Bool
  priv : Nat
  timerArmed : Bool
  deriving DecidableEq, Repr

/-- A record with every field zeroed (`kzalloc` at creation, `memset` in
`latency_tracker_put_event`); only the address `i` persists. -/
def zeroEvent (i : Nat) : Event where
  id := i
  hkey := 0
  key := List.replicate LATENCY_TRACKER_MAX_KEY_SIZE 0
  start_ts := 0
  end_ts := 0
  thresh := 0
  timeout := 0
  cb_flag := .unset
  cb_out_id := 0
  hasCb := false
  priv := 0
  timerArmed := false

/-- Contents of the record's key buffer after `memcpy(s->key, key,
key_len)` into a zeroed buffer. -/
def storeKey (key : List Nat) (key_len : Nat) : List Nat :=
  key.take key_len ++ List.replicate (LATENCY_TRACKER_MAX_KEY_SIZE - key_len) 0

/-- Type of `u32 (*hash_fct)(const void *key, u32 length, u32 initval)`. -/
def HashFn : Type := List Nat → Nat → Nat → Nat

/-- Type of `int (*match_fct)(const void *key1, const void *key2, size_t
length)`; zero means the keys are equal (as for `memcmp`). -/
def MatchFn : Type := List Nat → List Nat → Nat → Int

/-- Modelled from the spec: `jhash` comes from `linux/jhash.h`, outside
the sources; the spec only asks for "a general-purpose hash".  Modelled
as a concrete 32-bit fold over the first `len` bytes seeded with
`initval`. -/
def jhashModel : HashFn :=
  fun key len initval =>
    (key.take len).foldl (fun h b => (h * 16777619 + b) % U32) (initval % U32)

/-- Modelled from the spec: `memcmp` (byte-wise comparison over `len`
bytes) is a libc/kernel primitive outside the sources. -/
def memcmpModel : MatchFn :=
  fun a b len =>
    match len, a, b with
    | 0, _, _ => 0
    | len + 1, a, b =>
      let x := a.headD 0
      let y := b.headD 0
      if x < y then -1 else if y < x then 1 else memcmpModel a.tail b.tail len

/-- Operational state of `struct latency_tracker` with usable (non-NULL)
hash and match functions: the keyed index `ht`, the free-record pool
`free` (`events_free_list`, most recently released first), the GC
configuration and the GC timer state. -/
structure Tracker where
  hash_fct : HashFn
  match_fct : MatchFn
  gc_period : Nat
  gc_thresh : Nat
  gcArmed : Bool
  ht : List Event
  free : List Event
  priv : Nat

/-- `tracker->hash_fct(key, key_len, 0)`, truncated to `u32`. -/
def hashKey (t : Tracker) (key : List Nat) (key_len : Nat) : Nat :=
  t.hash_fct key key_len 0 % U32

/-- `hash_del(&s->hlist)`: unlink the (unique) chain node of the record
with address `i`. -/
def htDel : List Event → Nat → List Event
  | [], _ => []
  | s :: rest, i => if s.id = i then rest else s :: htDel rest i

/-- `wrapper_ht_del` (ht.h line 192). -/
def wrapper_ht_del (t : Tracker) (s : Event) : Tracker :=
  { t with ht := htDel t.ht s.id }

/-- `wrapper_ht_add` (ht.h line 191): `hash_add` prepends to the bucket
chain. -/
def wrapper_ht_add (t : Tracker) (s : Event) : Tracker :=
  { t with ht := s :: t.ht }

/-- `latency_tracker_put_event` (latency_tracker.c lines 95-101):
`memset` the record to zero, then `list_add` (prepend) onto the free
list. -/
def latency_tracker_put_event (t : Tracker) (s : Event) : Tracker :=
  { t with free := zeroEvent s.id :: t.free }

/-- `latency_tracker_event_destroy` (latency_tracker.c lines 106-118):
detach from the index, cancel a pending timer (`del_timer` when
`s->timeout > 0`; the timer state is zeroed with the record), release to
the pool. -/
def latency_tracker_event_destroy (t : Tracker) (s : Event) : Tracker :=
  latency_tracker_put_event (wrapper_ht_del t s) s

/-- `latency_tracker_get_event` (latency_tracker.c lines 72-90): take
`list_last_entry` of the free list, or NULL when the list is empty. -/
def latency_tracker_get_event (t : Tracker) : Tracker × Option Event :=
  match t.free.getLast? with
  | none => (t, none)
  | some e => ({ t with free := t.free.dropLast }, some e)

/-- Field updates performed on a matching event by
`wrapper_ht_check_event` before invoking the callback (ht.h lines
246-249). -/
def closeStamp (now id : Nat) (s : Event) : Event :=
  { s with end_ts := now, cb_flag := .explicit_close, cb_out_id := id }

/-- Field updates performed on an aged event by `wrapper_ht_gc` (ht.h
lines 221-223). -/
def gcStamp (now : Nat) (s : Event) : Event :=
  { s with end_ts := now, cb_flag := .garbage_collected }

/-- Field update performed on a duplicate event by
`wrapper_ht_unique_check` (ht.h line 273). -/
def dupStamp (s : Event) : Event :=
  { s with cb_flag := .duplicate_key }

/-- Loop body of `wrapper_ht_check_event` (ht.h lines 243-257) over the
snapshot of the bucket chain: skip non-matching entries, stamp and invoke
the callback when the elapsed time exceeds the event's threshold, then
unconditionally destroy the matching entry.  Returns the new state, the
`found` flag and the callback invocations. -/
def check_event_loop (key : List Nat) (key_len id now : Nat) :
    List Event → Tracker → Tracker × Bool × List Event
  | [], t => (t, false, [])
  | s :: rest, t =>
    if t.match_fct key s.key key_len = 0 then
      let fired := u64sub now s.start_ts > s.thresh
      let s' := if fired then closeStamp now id s else s
      let calls0 := if fired ∧ s'.hasCb then [s'] else []
      let t' := latency_tracker_event_destroy t s'
      let res := check_event_loop key key_len id now rest t'
      (res.1, true, calls0 ++ res.2.2)
    else
      check_event_loop key key_len id now rest t

/-- `wrapper_ht_check_event` (ht.h lines 231-261): scan the bucket chain
for `hash_fct(key)`. -/
def wrapper_ht_check_event (t : Tracker) (key : List Nat) (key_len id now : Nat) :
    Tracker × Bool × List Event :=
  let k := hashKey t key key_len
  check_event_loop key key_len id now (t.ht.filter (fun s => s.hkey == k)) t

/-- Loop body of `wrapper_ht_gc` (ht.h lines 220-228) over the snapshot
of the whole index: stamp and invoke the callback when the event's age
exceeds `gc_thresh`, then destroy the entry unconditionally (the destroy
sits outside the age test). -/
def gc_loop (now : Nat) : List Event → Tracker → Tracker × List Event
  | [], t => (t, [])
  | s :: rest, t =>
    let aged := u64sub now s.start_ts > t.gc_thresh
    let s' := if aged then gcStamp now s else s
    let calls0 := if aged ∧ s'.hasCb then [s'] else []
    let t' := latency_tracker_event_destroy t s'
    let res := gc_loop now rest t'
    (res.1, calls0 ++ res.2)

/-- `wrapper_ht_gc` (ht.h lines 213-229): `hash_for_each_safe` visits
every event in the index. -/
def wrapper_ht_gc (t : Tracker) (now : Nat) : Tracker × List Event :=
  gc_loop now t.ht t

/-- `latency_tracker_enable_gc` (latency_tracker.c lines 146-160):
disarm, then re-arm the GC timer unless `gc_period` or `gc_thresh` is
zero. -/
def latency_tracker_enable_gc (t : Tracker) : Tracker :=
  { t with gcArmed := !(t.gc_period == 0 || t.gc_thresh == 0) }

/-- `latency_tracker_gc_cb` (latency_tracker.c lines 131-143), with the
clock reading `now` injected. -/
def latency_tracker_gc_cb (t : Tracker) (now : Nat) : Tracker × List Event :=
  let res := wrapper_ht_gc t now
  (latency_tracker_enable_gc res.1, res.2)

/-- Loop body of `wrapper_ht_unique_check` (ht.h lines 270-278) over the
snapshot of the bucket chain: skip non-matching entries; at the first
full-key match, stamp it `CB_UNIQUE`, invoke its callback, destroy it and
stop. -/
def unique_check_loop (key : List Nat) (key_len : Nat) :
    List Event → Tracker → Tracker × List Event
  | [], t => (t, [])
  | s :: rest, t =>
    if t.match_fct key s.key key_len = 0 then
      let s' := dupStamp s
      (latency_tracker_event_destroy t s', if s'.hasCb then [s'] else [])
    else
      unique_check_loop key key_len rest t

/-- `wrapper_ht_unique_check` (ht.h lines 263-279). -/
def wrapper_ht_unique_check (t : Tracker) (key : List Nat) (key_len : Nat) :
    Tracker × List Event :=
  let k := hashKey t key key_len
  unique_check_loop key key_len (t.ht.filter (fun s => s.hkey == k)) t

/-- Loop body of `wrapper_ht_clear` (ht.h lines 205-208): destroy every
entry, counting them; no callback is invoked on this path. -/
def clear_loop : List Event → Tracker → Tracker × Nat
  | [], t => (t, 0)
  | s :: rest, t =>
    let t' := latency_tracker_event_destroy t s
    let res := clear_loop rest t'
    (res.1, res.2 + 1)

/-- `wrapper_ht_clear` (ht.h lines 197-211): returns the number of events
still live at destruction time. -/
def wrapper_ht_clear (t : Tracker) : Tracker × Nat :=
  clear_loop t.ht t

/-- `latency_tracker_destroy` (latency_tracker.c lines 243-256): disarm
the GC timer, clear the index (counting the still-pending events), then
free the pool records and the tracker.  Returns the reported count and
the (empty) list of callback invocations. -/
def latency_tracker_destroy (t : Tracker) : Nat × List Event :=
  let res := wrapper_ht_clear t
  (res.2, [])

/-- `latency_tracker_timeout_cb` (latency_tracker.c lines 259-270):
cancel the timer, set `cb_flag = LATENCY_TRACKER_CB_TIMEOUT`, zero
`timeout`, then call `data->cb` (the C code performs this call without a
NULL test).  Returns the updated record and the callback invocation. -/
def latency_tracker_timeout_cb (e : Event) : Event × List Event :=
  let e' := { e with timerArmed := false, cb_flag := .timeout_fired, timeout := 0 }
  (e', [e'])

/-- Firing of the per-event timer of the indexed record with address `r`:
the timer's `data` pointer addresses the record in place, so the update
is applied to the record inside the index; nothing else in the tracker is
touched by the C callback. -/
def tracker_timeout_fire (t : Tracker) (r : Nat) : Tracker × List Event :=
  match t.ht.find? (fun s => s.id == r) with
  | none => (t, [])
  | some e =>
    let res := latency_tracker_timeout_cb e
    ({ t with ht := t.ht.map (fun s => if s.id == r then res.1 else s) }, res.2)

/-- Return values of `latency_tracker_event_in`: `LATENCY_TRACKER_OK`,
`LATENCY_TRACKER_FULL`, `LATENCY_TRACKER_ERR` (the spec's `INVALID`). -/
inductive EventInRet where
  | ok
  | full
  | err
  deriving DecidableEq, Repr

/-- Body of `latency_tracker_event_in` (latency_tracker.c lines 286-327)
after the NULL-tracker test: reject an oversized key; under the lock run
the unique check if requested, acquire a pool record (`FULL` when none),
stamp it, arm its timer when `timeout > 0` and insert it into the
index. -/
def latency_tracker_event_in_body (t : Tracker) (key : List Nat)
    (key_len thresh : Nat) (hasCb : Bool) (timeout : Nat) (unique : Bool)
    (priv now : Nat) : Tracker × EventInRet × List Event :=
  if key_len > LATENCY_TRACKER_MAX_KEY_SIZE then
    (t, .err, [])
  else
    let uc := if unique then wrapper_ht_unique_check t key key_len else (t, [])
    match latency_tracker_get_event uc.1 with
    | (t2, none) => (t2, .full, uc.2)
    | (t2, some e) =>
      let e' := { e with
        hkey := hashKey t2 key key_len
        key := storeKey key key_len
        start_ts := now
        thresh := thresh
        timeout := timeout
        hasCb := hasCb
        priv := priv
        timerArmed := timeout != 0 }
      (wrapper_ht_add t2 e', .ok, uc.2)

/-- `latency_tracker_event_in` (latency_tracker.c lines 272-331), with
the clock reading `now` injected; `none` models a NULL tracker
pointer. -/
def latency_tracker_event_in (tracker : Option Tracker) (key : List Nat)
    (key_len thresh : Nat) (hasCb : Bool) (timeout : Nat) (unique : Bool)
    (priv now : Nat) : Option Tracker × EventInRet × List Event :=
  match tracker with
  | none => (none, .err, [])
  | some t =>
    let res := latency_tracker_event_in_body t key key_len thresh hasCb timeout unique priv now
    (some res.1, res.2)

/-- `latency_tracker_event_out` (latency_tracker.c lines 333-358):
returns `0` when at least one matching event was retired and `-1`
otherwise (also for a NULL tracker). -/
def latency_tracker_event_out (tracker : Option Tracker) (key : List Nat)
    (key_len id now : Nat) : Option Tracker × Int × List Event :=
  match tracker with
  | none => (none, -1, [])
  | some t =>
    let res := wrapper_ht_check_event t key key_len id now
    (some res.1, if res.2.1 then 0 else -1, res.2.2)

/-- State of a freshly created `struct latency_tracker`: the function
pointers are kept optional because `kzalloc` leaves them NULL and
`latency_tracker_create` assigns them only conditionally. -/
structure CreatedTracker where
  hash_fct : Option HashFn
  match_fct : Option MatchFn
  gc_period : Nat
  gc_thresh : Nat
  gcArmed : Bool
  ht : List Event
  free : List Event
  priv : Nat

/-- `latency_tracker_create` (latency_tracker.c lines 184-240), the
successful-allocation path: the tracker is zero-initialized, the default
hash (`jhash`) and match (`memcmp`) functions are assigned only when the
corresponding argument is NULL, a zero `max_events` falls back to
`DEFAULT_MAX_ALLOC_EVENTS`, the GC timer is armed, and `max_events`
zeroed records are prepended one by one onto the free list. -/
def latency_tracker_create (match_fct : Option MatchFn) (hash_fct : Option HashFn)
    (max_events : Nat) (gc_period gc_thresh : Nat) (priv : Nat) : CreatedTracker :=
  let storedHash := match hash_fct with
    | none => some jhashModel
    | some _ => none
  let storedMatch := match match_fct with
    | none => some memcmpModel
    | some _ => none
  let n := if max_events = 0 then DEFAULT_MAX_ALLOC_EVENTS else max_events
  { hash_fct := storedHash
    match_fct := storedMatch
    gc_period := gc_period
    gc_thresh := gc_thresh
    gcArmed := !(gc_period == 0 || gc_thresh == 0)
    ht := []
    free := ((List.range n).map zeroEvent).reverse
    priv := priv }

/-- Projection of a created tracker to the operational state; `none` when
either stored function pointer is NULL (such a tracker crashes on its
first use). -/
def CreatedTracker.toTracker (c : CreatedTracker) : Option Tracker :=
  match c.hash_fct, c.match_fct with
  | some h, some m =>
    some { hash_fct := h, match_fct := m, gc_period := c.gc_period,
           gc_thresh := c.gc_thresh, gcArmed := c.gcArmed, ht := c.ht,
           free := c.free, priv := c.priv }
  | _, _ => none

/-- Arguments of one `latency_tracker_event_in` call. -/
structure OpenReq where
  key : List Nat
  key_len : Nat
  thresh : Nat
  hasCb : Bool
  timeout : Nat
  unique : Bool
  priv : Nat
  now : Nat

/-- Sequence of `latency_tracker_event_in` calls on a live tracker,
collecting the return codes. -/
def openSeq : Tracker → List OpenReq → Tracker × List EventInRet
  | t, [] => (t, [])
  | t, r :: rest =>
    let res := latency_tracker_event_in_body t r.key r.key_len r.thresh r.hasCb
      r.timeout r.unique r.priv r.now
    let res' := openSeq res.1 rest
    (res'.1, res.2.1 :: res'.2)

/-- Number of copies of record address `r` on the free list. -/
def freeCount (t : Tracker) (r : Nat) : Nat :=
  (t.free.filter (fun e => e.id == r)).length

/-- Well-formedness invariant of a live tracker: every pooled record
address appears exactly once, across the index and the free list
together. -/
def WellFormed (t : Tracker) : Prop :=
  (t.ht.map Event.id ++ t.free.map Event.id).Nodup

instance (t : Tracker) : Decidable (WellFormed t) := by
  unfold WellFormed; infer_instance

/-! ### Specification-side predicates -/

/-- Bucket membership test of the bucket scans: the record's cached hash
equals the probed hash. -/
def inBucket (k : Nat) (s : Event) : Bool := s.hkey == k

/-- Full-key match test of the scans: `match_fct` returned zero. -/
def keyMatch (mf : MatchFn) (key : List Nat) (key_len : Nat) (s : Event) : Bool :=
  mf key s.key key_len == 0

/-- Threshold test of `wrapper_ht_check_event`. -/
def overThresh (now : Nat) (s : Event) : Bool :=
  decide (u64sub now s.start_ts > s.thresh)

/-- An event `wrapper_ht_check_event` retires for the probe `(key,
key_len)` on a tracker hashing to `k`: it lies in the probed bucket and
its full key matches. -/
def closeMatch (mf : MatchFn) (k : Nat) (key : List Nat) (key_len : Nat) (s : Event) : Bool :=
  inBucket k s && keyMatch mf key key_len s

/-- Age test of the GC sweep: the event's age at `now` exceeds the
threshold `g`. -/
def overAge (g now : Nat) (s : Event) : Bool :=
  decide (u64sub now s.start_ts > g)

/-- Field stamping performed by `latency_tracker_event_in` on the record
acquired from the pool (latency_tracker.c lines 305-321). -/
def openStamp (t : Tracker) (key : List Nat) (kl th : Nat) (cb : Bool)
    (tmo prv now : Nat) (e : Event) : Event :=
  { e with
    hkey := hashKey t key kl
    key := storeKey key kl
    start_ts := now
    thresh := th
    timeout := tmo
    hasCb := cb
    priv := prv
    timerArmed := tmo != 0 }

/-! ### Concrete fixtures used by the witnesses -/

/-- Constant hash function for concrete test trackers. -/
def hashW : HashFn := fun _ _ _ => 7

/-- Prefix-equality match function for concrete test trackers: returns
zero exactly on equal `len`-byte prefixes. -/
def matchW : MatchFn := fun a b len => if a.take len = b.take len then 0 else 1

/-- A live concrete event holding key bytes `[1, 2, 3]`. -/
def evW (i : Nat) : Event where
  id := i
  hkey := 7
  key := storeKey [1, 2, 3] 3
  start_ts := 10
  end_ts := 0
  thresh := 5
  timeout := 0
  cb_flag := .unset
  cb_out_id := 0
  hasCb := true
  priv := 0
  timerArmed := false

/-- A concrete tracker holding the single event `evW 0`, with one free
record. -/
def tW : Tracker where
  hash_fct := hashW
  match_fct := matchW
  gc_period := 0
  gc_thresh := 0
  gcArmed := false
  ht := [evW 0]
  free := [zeroEvent 1]
  priv := 0

/-- A concrete open request with key `[1, 2, 3]`. -/
def reqW : OpenReq where
  key := [1, 2, 3]
  key_len := 3
  thresh := 5
  hasCb := true
  timeout := 0
  unique := false
  priv := 0
  now := 10

/-- A concrete empty tracker with pool capacity one. -/
def tCap : Tracker where
  hash_fct := hashW
  match_fct := matchW
  gc_period := 0
  gc_thresh := 0
  gcArmed := false
  ht := []
  free := [zeroEvent 0]
  priv := 0

/-- A live concrete event opened with a pending timeout. -/
def evT : Event where
  id := 0
  hkey := 7
  key := storeKey [1, 2, 3] 3
  start_ts := 10
  end_ts := 0
  thresh := 5
  timeout := 20
  cb_flag := .unset
  cb_out_id := 0
  hasCb := true
  priv := 0
  timerArmed := true

/-- A concrete tracker holding the timed event `evT`. -/
def tT : Tracker where
  hash_fct := hashW
  match_fct := matchW
  gc_period := 0
  gc_thresh := 0
  gcArmed := false
  ht := [evT]
  free := [zeroEvent 1]
  priv := 0

/-! ### Basic lemmas about the index primitives -/

theorem htDel_of_not_mem : ∀ (l : List Event) (i : Nat), i ∉ l.map Event.id → htDel l i = l := by
  intro l
  induction l with
  | nil => intro i _; rfl
  | cons s rest ih =>
    intro i h
    simp only [List.map_cons, List.mem_cons, not_or] at h
    simp only [htDel, if_neg (Ne.symm h.1)]
    rw [ih i h.2]

theorem htDel_eq_filter : ∀ (l : List Event) (i : Nat), (l.map Event.id).Nodup →
    htDel l i = l.filter (fun s => !(s.id == i)) := by
  intro l
  induction l with
  | nil => intro i _; rfl
  | cons s rest ih =>
    intro i h
    simp only [List.map_cons, List.nodup_cons] at h
    by_cases hs : s.id = i
    · subst hs
      have hrest : List.filter (fun x => !(x.id == s.id)) rest = rest :=
        List.filter_eq_self.mpr (by
          intro a ha
          simp only [Bool.not_eq_true', beq_eq_false_iff_ne, ne_eq]
          intro hc
          exact h.1 (hc ▸ List.mem_map_of_mem Event.id ha))
      simp [htDel, hrest]
    · simp only [htDel, if_neg hs, List.filter_cons]
      have : (!(s.id == i)) = true := by simp [hs]
      rw [if_pos this, ih i h.2]

theorem nodup_map_id_inj {l : List Event} (h : (l.map Event.id).Nodup) :
    ∀ x ∈ l, ∀ y ∈ l, x.id = y.id → x = y := by
  induction l with
  | nil => intro x hx; cases hx
  | cons s rest ih =>
    simp only [List.map_cons, List.nodup_cons] at h
    intro x hx y hy hxy
    rcases List.mem_cons.mp hx with rfl | hx' <;>
      rcases List.mem_cons.mp hy with rfl | hy'
    · rfl
    · exact absurd (hxy ▸ List.mem_map_of_mem Event.id hy') h.1
    · exact absurd (hxy ▸ List.mem_map_of_mem Event.id hx') h.1
    · exact ih h.2 x hx' y hy' hxy

theorem nodup_ids_filter (l : List Event) (p : Event → Bool)
    (h : (l.map Event.id).Nodup) : ((l.filter p).map Event.id).Nodup :=
  ((List.filter_sublist l).map Event.id).nodup h

theorem destroy_ht (t : Tracker) (s : Event) :
    (latency_tracker_event_destroy t s).ht = htDel t.ht s.id := rfl

theorem destroy_free (t : Tracker) (s : Event) :
    (latency_tracker_event_destroy t s).free = zeroEvent s.id :: t.free := rfl

theorem destroy_match_fct (t : Tracker) (s : Event) :
    (latency_tracker_event_destroy t s).match_fct = t.match_fct := rfl

theorem destroy_hash_fct (t : Tracker) (s : Event) :
    (latency_tracker_event_destroy t s).hash_fct = t.hash_fct := rfl

theorem destroy_gc_thresh (t : Tracker) (s : Event) :
    (latency_tracker_event_destroy t s).gc_thresh = t.gc_thresh := rfl

theorem closeStamp_id (now id : Nat) (s : Event) : (closeStamp now id s).id = s.id := rfl

theorem closeStamp_hasCb (now id : Nat) (s : Event) :
    (closeStamp now id s).hasCb = s.hasCb := rfl

/-! ### Characterization of the `wrapper_ht_check_event` scan -/

theorem check_event_loop_found (mf : MatchFn) (key : List Nat) (kl id now : Nat) :
    ∀ (l : List Event) (t : Tracker), t.match_fct = mf →
      (check_event_loop key kl id now l t).2.1 = l.any (keyMatch mf key kl) := by
  intro l
  induction l with
  | nil => intro t _; rfl
  | cons s rest ih =>
    intro t ht
    simp only [check_event_loop, ht]
    by_cases hm : mf key s.key kl = 0
    · simp [hm, keyMatch]
    · have : keyMatch mf key kl s = false := by
        simp [keyMatch, hm]
      simp [hm, this, ih t ht]

theorem check_event_loop_calls (mf : MatchFn) (key : List Nat) (kl id now : Nat) :
    ∀ (l : List Event) (t : Tracker), t.match_fct = mf →
      (check_event_loop key kl id now l t).2.2
        = (l.filter (fun x => keyMatch mf key kl x && overThresh now x && x.hasCb)).map
            (closeStamp now id) := by
  intro l
  induction l with
  | nil => intro t _; rfl
  | cons s rest ih =>
    intro t ht
    simp only [check_event_loop, ht, List.filter_cons]
    by_cases hm : mf key s.key kl = 0
    · have hkm : keyMatch mf key kl s = true := by simp [keyMatch, hm]
      by_cases hf : u64sub now s.start_ts > s.thresh
      · have hot : overThresh now s = true := by simp [overThresh, hf]
        have hrec := ih (latency_tracker_event_destroy t (closeStamp now id s))
          (by rw [destroy_match_fct]; exact ht)
        by_cases hcb : s.hasCb = true
        · simp [hm, hf, hkm, hot, hcb, closeStamp_hasCb, hrec]
        · simp [hm, hf, hkm, hot, hcb, closeStamp_hasCb, hrec]
      · have hot : overThresh now s = false := by simp [overThresh, hf]
        have hrec := ih (latency_tracker_event_destroy t s)
          (by rw [destroy_match_fct]; exact ht)
        simp [hm, hf, hkm, hot, hrec]
    · have hkm : keyMatch mf key kl s = false := by simp [keyMatch, hm]
      simp [hm, hkm, ih t ht]

theorem check_event_loop_free (mf : MatchFn) (key : List Nat) (kl id now : Nat) :
    ∀ (l : List Event) (t : Tracker), t.match_fct = mf →
      (check_event_loop key kl id now l t).1.free
        = ((l.filter (keyMatch mf key kl)).map (fun x => zeroEvent x.id)).reverse ++ t.free := by
  intro l
  induction l with
  | nil => intro t _; rfl
  | cons s rest ih =>
    intro t ht
    simp only [check_event_loop, ht, List.filter_cons]
    by_cases hm : mf key s.key kl = 0
    · have hkm : keyMatch mf key kl s = true := by simp [keyMatch, hm]
      by_cases hf : u64sub now s.start_ts > s.thresh
      · have hrec := ih (latency_tracker_event_destroy t (closeStamp now id s))
          (by rw [destroy_match_fct]; exact ht)
        simp [hm, hf, hkm, hrec, destroy_free, closeStamp_id]
      · have hrec := ih (latency_tracker_event_destroy t s)
          (by rw [destroy_match_fct]; exact ht)
        simp [hm, hf, hkm, hrec, destroy_free]
    · have hkm : keyMatch mf key kl s = false := by simp [keyMatch, hm]
      simp [hm, hkm, ih t ht]

theorem check_event_loop_ht (mf : MatchFn) (key : List Nat) (kl id now : Nat) :
    ∀ (l : List Event) (t : Tracker), t.match_fct = mf →
      (t.ht.map Event.id).Nodup →
      (check_event_loop key kl id now l t).1.ht
        = t.ht.filter
            (fun s => !((l.filter (keyMatch mf key kl)).any (fun x => x.id == s.id))) := by
  intro l
  induction l with
  | nil =>
    intro t _ _
    simp [check_event_loop]
  | cons s rest ih =>
    intro t ht hnd
    simp only [check_event_loop, ht]
    by_cases hm : mf key s.key kl = 0
    · have hkm : keyMatch mf key kl s = true := by simp [keyMatch, hm]
      by_cases hf : u64sub now s.start_ts > s.thresh
      · have hdel : (latency_tracker_event_destroy t (closeStamp now id s)).ht
            = t.ht.filter (fun x => !(x.id == s.id)) := by
          rw [destroy_ht, closeStamp_id, htDel_eq_filter t.ht s.id hnd]
        have hnd' :
            ((latency_tracker_event_destroy t (closeStamp now id s)).ht.map Event.id).Nodup := by
          rw [hdel]; exact nodup_ids_filter t.ht _ hnd
        have hrec := ih (latency_tracker_event_destroy t (closeStamp now id s))
          (by rw [destroy_match_fct]; exact ht) hnd'
        simp only [hm, hf, if_true, hkm, hrec, hdel, List.filter_filter, List.filter_cons,
          if_pos, List.any_cons, ite_true]
        refine List.filter_congr ?_
        intro x _
        have hbeq : (x.id == s.id) = (s.id == x.id) := by
          by_cases hx : x.id = s.id
          · simp [hx]
          · simp [hx, Ne.symm hx]
        simp [List.any_cons, Bool.not_or, hbeq, Bool.and_comm]
      · have hdel : (latency_tracker_event_destroy t s).ht
            = t.ht.filter (fun x => !(x.id == s.id)) := by
          rw [destroy_ht, htDel_eq_filter t.ht s.id hnd]
        have hnd' : ((latency_tracker_event_destroy t s).ht.map Event.id).Nodup := by
          rw [hdel]; exact nodup_ids_filter t.ht _ hnd
        have hrec := ih (latency_tracker_event_destroy t s)
          (by rw [destroy_match_fct]; exact ht) hnd'
        simp only [hm, hf, hkm, hrec, hdel, List.filter_filter, List.filter_cons,
          if_pos, List.any_cons, ite_true, ite_false]
        refine List.filter_congr ?_
        intro x _
        have hbeq : (x.id == s.id) = (s.id == x.id) := by
          by_cases hx : x.id = s.id
          · simp [hx]
          · simp [hx, Ne.symm hx]
        simp [List.any_cons, Bool.not_or, hbeq, Bool.and_comm]
    · have hkm : keyMatch mf key kl s = false := by simp [keyMatch, hm]
      simp [hm, hkm, ih t ht hnd]

theorem check_event_found (t : Tracker) (key : List Nat) (kl id now : Nat) :
    (wrapper_ht_check_event t key kl id now).2.1
      = t.ht.any (closeMatch t.match_fct (hashKey t key kl) key kl) := by
  simp only [wrapper_ht_check_event]
  rw [check_event_loop_found t.match_fct key kl id now _ t rfl, List.any_filter]
  rfl

theorem check_event_calls (t : Tracker) (key : List Nat) (kl id now : Nat) :
    (wrapper_ht_check_event t key kl id now).2.2
      = (t.ht.filter (fun s =>
            closeMatch t.match_fct (hashKey t key kl) key kl s
              && overThresh now s && s.hasCb)).map (closeStamp now id) := by
  simp only [wrapper_ht_check_event]
  rw [check_event_loop_calls t.match_fct key kl id now _ t rfl, List.filter_filter]
  congr 1
  refine List.filter_congr ?_
  intro x _
  simp [closeMatch, inBucket, keyMatch, Bool.and_comm, Bool.and_assoc, Bool.and_left_comm]

theorem check_event_free (t : Tracker) (key : List Nat) (kl id now : Nat) :
    (wrapper_ht_check_event t key kl id now).1.free
      = ((t.ht.filter (closeMatch t.match_fct (hashKey t key kl) key kl)).map
          (fun s => zeroEvent s.id)).reverse ++ t.free := by
  simp only [wrapper_ht_check_event]
  rw [check_event_loop_free t.match_fct key kl id now _ t rfl, List.filter_filter]
  congr 3
  refine List.filter_congr ?_
  intro x _
  simp [closeMatch, inBucket, keyMatch, Bool.and_comm]

theorem check_event_ht (t : Tracker) (key : List Nat) (kl id now : Nat)
    (hnd : (t.ht.map Event.id).Nodup) :
    (wrapper_ht_check_event t key kl id now).1.ht
      = t.ht.filter (fun s => !closeMatch t.match_fct (hashKey t key kl) key kl s) := by
  simp only [wrapper_ht_check_event]
  rw [check_event_loop_ht t.match_fct key kl id now _ t rfl hnd, List.filter_filter]
  refine List.filter_congr ?_
  intro s hs
  suffices h : (t.ht.filter (fun a =>
      keyMatch t.match_fct key kl a && a.hkey == hashKey t key kl)).any
        (fun x => x.id == s.id) = closeMatch t.match_fct (hashKey t key kl) key kl s by
    rw [h]
  by_cases hcm : closeMatch t.match_fct (hashKey t key kl) key kl s = true
  · rw [hcm, List.any_eq_true]
    refine ⟨s, List.mem_filter.mpr ⟨hs, ?_⟩, by simp⟩
    simp only [closeMatch, inBucket, Bool.and_eq_true] at hcm
    simp [hcm.1, hcm.2]
  · have hcmf : closeMatch t.match_fct (hashKey t key kl) key kl s = false :=
      Bool.eq_false_iff.mpr hcm
    rw [hcmf, List.any_eq_false]
    intro x hx
    simp only [beq_iff_eq]
    intro hxid
    apply hcm
    have hx' := List.mem_filter.mp hx
    have hxs : x = s := nodup_map_id_inj hnd x hx'.1 s hs hxid
    subst hxs
    simp only [closeMatch, inBucket, Bool.and_eq_true]
    have hpq := hx'.2
    simp only [Bool.and_eq_true] at hpq
    exact ⟨hpq.2, hpq.1⟩

/-! ### Claim C5 -/

/-- C5: a `close_event(key, key_len, id)` call at time `now`, on an index
whose record addresses are distinct, retires exactly the indexed events
whose bucket hash and full key match the probe: every matching event is
removed from the index and its zeroed record is released to the pool
(first two conjuncts; non-matching events stay); the user callback is
invoked exactly on the matching events with `now - start_ts > thresh` and
a non-NULL callback, receiving `end_ts = now`,
`cb_flag = LATENCY_TRACKER_CB_NORMAL` and `cb_out_id = id` (third
conjunct, via `closeStamp`); and `latency_tracker_event_out` returns `0`
("found") exactly when at least one event matched, `-1` otherwise
(fourth conjunct). -/
theorem close_event_contract (t : Tracker) (key : List Nat) (kl id now : Nat)
    (hnd : (t.ht.map Event.id).Nodup) :
    (wrapper_ht_check_event t key kl id now).1.ht
        = t.ht.filter (fun s => !closeMatch t.match_fct (hashKey t key kl) key kl s) ∧
    (wrapper_ht_check_event t key kl id now).1.free
        = ((t.ht.filter (closeMatch t.match_fct (hashKey t key kl) key kl)).map
            (fun s => zeroEvent s.id)).reverse ++ t.free ∧
    (wrapper_ht_check_event t key kl id now).2.2
        = (t.ht.filter (fun s =>
            closeMatch t.match_fct (hashKey t key kl) key kl s
              && overThresh now s && s.hasCb)).map (closeStamp now id) ∧
    latency_tracker_event_out (some t) key kl id now
        = (some (wrapper_ht_check_event t key kl id now).1,
           if t.ht.any (closeMatch t.match_fct (hashKey t key kl) key kl) then 0 else -1,
           (wrapper_ht_check_event t key kl id now).2.2) := by
  refine ⟨check_event_ht t key kl id now hnd, check_event_free t key kl id now,
    check_event_calls t key kl id now, ?_⟩
  simp [latency_tracker_event_out, check_event_found]

/-- Witness: on the concrete tracker `tW` holding one event with key
`[1, 2, 3]` opened at time 10 with threshold 5, closing key `[1, 2, 3]`
with id 9 at time 100 empties the index, invokes the callback with the
close stamp, and reports "found". -/
theorem close_event_contract_witness :
    ((wrapper_ht_check_event tW [1, 2, 3] 3 9 100).1.ht
        = tW.ht.filter
            (fun s => !closeMatch tW.match_fct (hashKey tW [1, 2, 3] 3) [1, 2, 3] 3 s)) ∧
    (wrapper_ht_check_event tW [1, 2, 3] 3 9 100).1.ht = [] ∧
    (wrapper_ht_check_event tW [1, 2, 3] 3 9 100).2.2 = [closeStamp 100 9 (evW 0)] ∧
    (latency_tracker_event_out (some tW) [1, 2, 3] 3 9 100).2.1 = 0 :=
  ⟨(close_event_contract tW [1, 2, 3] 3 9 100 (by decide)).1, by decide, by decide, by decide⟩

/-! ### Characterization of the `wrapper_ht_gc` sweep, claim C2 -/

theorem gcStamp_id (now : Nat) (s : Event) : (gcStamp now s).id = s.id := rfl

theorem gcStamp_hasCb (now : Nat) (s : Event) : (gcStamp now s).hasCb = s.hasCb := rfl

theorem gc_loop_calls (g now : Nat) :
    ∀ (l : List Event) (t : Tracker), t.gc_thresh = g →
      (gc_loop now l t).2
        = (l.filter (fun s => overAge g now s && s.hasCb)).map (gcStamp now) := by
  intro l
  induction l with
  | nil => intro t _; rfl
  | cons s rest ih =>
    intro t ht
    simp only [gc_loop, ht, List.filter_cons]
    by_cases hf : u64sub now s.start_ts > g
    · have hov : overAge g now s = true := by simp [overAge, hf]
      have hrec := ih (latency_tracker_event_destroy t (gcStamp now s))
        (by rw [destroy_gc_thresh]; exact ht)
      by_cases hcb : s.hasCb = true
      · simp [hf, hov, hcb, gcStamp_hasCb, hrec]
      · simp [hf, hov, hcb, gcStamp_hasCb, hrec]
    · have hov : overAge g now s = false := by simp [overAge, hf]
      have hrec := ih (latency_tracker_event_destroy t s)
        (by rw [destroy_gc_thresh]; exact ht)
      simp [hf, hov, hrec]

theorem gc_loop_free (now : Nat) :
    ∀ (l : List Event) (t : Tracker),
      (gc_loop now l t).1.free
        = (l.map (fun s => zeroEvent s.id)).reverse ++ t.free := by
  intro l
  induction l with
  | nil => intro t; rfl
  | cons s rest ih =>
    intro t
    simp only [gc_loop]
    by_cases hf : u64sub now s.start_ts > t.gc_thresh
    · simp [hf, ih (latency_tracker_event_destroy t (gcStamp now s)), destroy_free, gcStamp_id]
    · simp [hf, ih (latency_tracker_event_destroy t s), destroy_free]

theorem gc_loop_ht (now : Nat) :
    ∀ (l : List Event) (t : Tracker), (t.ht.map Event.id).Nodup →
      (gc_loop now l t).1.ht
        = t.ht.filter (fun s => !(l.any (fun x => x.id == s.id))) := by
  intro l
  induction l with
  | nil => intro t _; simp [gc_loop]
  | cons s rest ih =>
    intro t hnd
    simp only [gc_loop]
    by_cases hf : u64sub now s.start_ts > t.gc_thresh
    · have hdel : (latency_tracker_event_destroy t (gcStamp now s)).ht
          = t.ht.filter (fun x => !(x.id == s.id)) := by
        rw [destroy_ht, gcStamp_id, htDel_eq_filter t.ht s.id hnd]
      have hnd' : ((latency_tracker_event_destroy t (gcStamp now s)).ht.map Event.id).Nodup := by
        rw [hdel]; exact nodup_ids_filter t.ht _ hnd
      have hrec := ih (latency_tracker_event_destroy t (gcStamp now s)) hnd'
      simp only [hf, ite_true, if_pos, hrec, hdel, List.filter_filter]
      refine List.filter_congr ?_
      intro x _
      have hbeq : (x.id == s.id) = (s.id == x.id) := by
        by_cases hx : x.id = s.id
        · simp [hx]
        · simp [hx, Ne.symm hx]
      simp [List.any_cons, Bool.not_or, hbeq, Bool.and_comm]
    · have hdel : (latency_tracker_event_destroy t s).ht
          = t.ht.filter (fun x => !(x.id == s.id)) := by
        rw [destroy_ht, htDel_eq_filter t.ht s.id hnd]
      have hnd' : ((latency_tracker_event_destroy t s).ht.map Event.id).Nodup := by
        rw [hdel]; exact nodup_ids_filter t.ht _ hnd
      have hrec := ih (latency_tracker_event_destroy t s) hnd'
      simp only [hf, ite_false, if_neg, hrec, hdel, List.filter_filter]
      refine List.filter_congr ?_
      intro x _
      have hbeq : (x.id == s.id) = (s.id == x.id) := by
        by_cases hx : x.id = s.id
        · simp [hx]
        · simp [hx, Ne.symm hx]
      simp [List.any_cons, Bool.not_or, hbeq, Bool.and_comm]

/-- C2 counterexample: on the concrete tracker `tW` (gc_thresh 0), the
event `evW 0` opened at time 10 has age 0 at a sweep firing at time 10,
which does not exceed the threshold — yet the sweep removes it from the
index (the index is empty afterwards), with no callback.  This refutes
the clause "an event whose age does not exceed G is not retired by the
sweep and remains in the index". -/
theorem gc_sweep_counterexample :
    ¬(u64sub 10 (evW 0).start_ts > tW.gc_thresh) ∧ evW 0 ∈ tW.ht ∧
    (wrapper_ht_gc tW 10).1.ht = [] ∧ (wrapper_ht_gc tW 10).2 = [] :=
  ⟨by decide, by decide, by decide, by decide⟩

/-- C2 (amended): a GC sweep at time `now` over an index with distinct
record addresses retires (detaches and releases) every event in the
index, unconditionally; the events whose age `now - start_ts` exceeds
`gc_thresh` additionally get `end_ts = now` and
`cb_flag = LATENCY_TRACKER_CB_GC` and, when their callback is non-NULL,
have it invoked; events whose age does not exceed the threshold are
retired silently. -/
theorem gc_sweep_contract (t : Tracker) (now : Nat)
    (hnd : (t.ht.map Event.id).Nodup) :
    (wrapper_ht_gc t now).1.ht = [] ∧
    (wrapper_ht_gc t now).1.free
        = (t.ht.map (fun s => zeroEvent s.id)).reverse ++ t.free ∧
    (wrapper_ht_gc t now).2
        = (t.ht.filter (fun s => overAge t.gc_thresh now s && s.hasCb)).map (gcStamp now) := by
  refine ⟨?_, gc_loop_free now t.ht t, gc_loop_calls t.gc_thresh now t.ht t rfl⟩
  rw [wrapper_ht_gc, gc_loop_ht now t.ht t hnd]
  rw [List.filter_eq_nil_iff]
  intro s hs
  simp only [Bool.not_eq_true', Bool.not_eq_false]
  rw [List.any_eq_true]
  exact ⟨s, hs, by simp⟩

/-- Witness: on the concrete tracker `tW` the sweep at time 100 empties
the index and invokes the callback on `evW 0` (age 90 > threshold 0)
with the GC stamp. -/
theorem gc_sweep_contract_witness :
    (wrapper_ht_gc tW 100).1.ht = [] ∧
    (wrapper_ht_gc tW 100).2 = [gcStamp 100 (evW 0)] :=
  ⟨(gc_sweep_contract tW 100 (by decide)).1, by decide⟩

/-! ### Characterization of `wrapper_ht_clear` -/

theorem clear_loop_count : ∀ (l : List Event) (t : Tracker), (clear_loop l t).2 = l.length := by
  intro l
  induction l with
  | nil => intro t; rfl
  | cons s rest ih => intro t; simp [clear_loop, ih]

theorem clear_loop_free : ∀ (l : List Event) (t : Tracker),
    (clear_loop l t).1.free = (l.map (fun s => zeroEvent s.id)).reverse ++ t.free := by
  intro l
  induction l with
  | nil => intro t; rfl
  | cons s rest ih =>
    intro t
    simp [clear_loop, ih (latency_tracker_event_destroy t s), destroy_free]

theorem clear_loop_ht : ∀ (l : List Event) (t : Tracker), (t.ht.map Event.id).Nodup →
    (clear_loop l t).1.ht = t.ht.filter (fun s => !(l.any (fun x => x.id == s.id))) := by
  intro l
  induction l with
  | nil => intro t _; simp [clear_loop]
  | cons s rest ih =>
    intro t hnd
    simp only [clear_loop]
    have hdel : (latency_tracker_event_destroy t s).ht
        = t.ht.filter (fun x => !(x.id == s.id)) := by
      rw [destroy_ht, htDel_eq_filter t.ht s.id hnd]
    have hnd' : ((latency_tracker_event_destroy t s).ht.map Event.id).Nodup := by
      rw [hdel]; exact nodup_ids_filter t.ht _ hnd
    have hrec := ih (latency_tracker_event_destroy t s) hnd'
    simp only [hrec, hdel, List.filter_filter]
    refine List.filter_congr ?_
    intro x _
    have hbeq : (x.id == s.id) = (s.id == x.id) := by
      by_cases hx : x.id = s.id
      · simp [hx]
      · simp [hx, Ne.symm hx]
    simp [List.any_cons, Bool.not_or, hbeq, Bool.and_comm]

theorem clear_ht_empty (t : Tracker) (hnd : (t.ht.map Event.id).Nodup) :
    (wrapper_ht_clear t).1.ht = [] := by
  rw [wrapper_ht_clear, clear_loop_ht t.ht t hnd, List.filter_eq_nil_iff]
  intro s hs
  simp only [Bool.not_eq_true', Bool.not_eq_false]
  rw [List.any_eq_true]
  exact ⟨s, hs, by simp⟩

/-! ### The open path: `latency_tracker_event_in` -/

theorem event_in_body_full (t : Tracker) (key : List Nat) (kl th : Nat) (cb : Bool)
    (tmo prv now : Nat) (hkl : kl ≤ LATENCY_TRACKER_MAX_KEY_SIZE) (hfree : t.free = []) :
    latency_tracker_event_in_body t key kl th cb tmo false prv now = (t, .full, []) := by
  simp [latency_tracker_event_in_body, Nat.not_lt.mpr hkl, latency_tracker_get_event, hfree]

theorem event_in_body_ok (t : Tracker) (key : List Nat) (kl th : Nat) (cb : Bool)
    (tmo prv now : Nat) (e : Event)
    (hkl : kl ≤ LATENCY_TRACKER_MAX_KEY_SIZE) (hlast : t.free.getLast? = some e) :
    latency_tracker_event_in_body t key kl th cb tmo false prv now
      = ({ t with ht := (openStamp t key kl th cb tmo prv now e :: t.ht),
                  free := t.free.dropLast }, .ok, []) := by
  simp [latency_tracker_event_in_body, Nat.not_lt.mpr hkl, latency_tracker_get_event, hlast,
    wrapper_ht_add, openStamp, hashKey]

theorem recordIds_perm_open (t : Tracker) (e : Event) (e' : Event)
    (hid : e'.id = e.id) (hlast : t.free.getLast? = some e) :
    ((e' :: t.ht).map Event.id ++ (t.free.dropLast).map Event.id).Perm
      (t.ht.map Event.id ++ t.free.map Event.id) := by
  have hne : t.free ≠ [] := by
    intro h
    rw [h] at hlast
    cases hlast
  have hsplit : t.free.dropLast ++ [e] = t.free := by
    have hconc := List.dropLast_concat_getLast hne
    rwa [(List.getLast_eq_iff_getLast?_eq_some hne).mpr hlast] at hconc
  have hmap : t.free.map Event.id = (t.free.dropLast).map Event.id ++ [e.id] := by
    conv_lhs => rw [← hsplit]
    simp
  rw [hmap]
  simp only [List.map_cons, List.cons_append, hid]
  rw [← List.append_assoc]
  exact (List.perm_append_singleton e.id _).symm

theorem openSeq_spec : ∀ (reqs : List OpenReq) (t : Tracker),
    (∀ r ∈ reqs, r.unique = false ∧ r.key_len ≤ LATENCY_TRACKER_MAX_KEY_SIZE) →
    reqs.length ≤ t.free.length →
    (∀ ret ∈ (openSeq t reqs).2, ret = EventInRet.ok) ∧
    (openSeq t reqs).1.free.length = t.free.length - reqs.length ∧
    (openSeq t reqs).1.ht.length = t.ht.length + reqs.length ∧
    (WellFormed t → WellFormed (openSeq t reqs).1) := by
  intro reqs
  induction reqs with
  | nil =>
    intro t _ _
    refine ⟨(by intro ret h; cases h), (by simp [openSeq]), (by simp [openSeq]), fun h => h⟩
  | cons r rest ih =>
    intro t hreq hlen
    obtain ⟨hu, hkl⟩ := hreq r (List.mem_cons_self r rest)
    have hne : t.free ≠ [] := by
      intro h
      rw [h] at hlen
      simp at hlen
    obtain ⟨e, he⟩ : ∃ e, t.free.getLast? = some e := by
      cases hfl : t.free.getLast? with
      | none => exact absurd (List.getLast?_eq_none_iff.mp hfl) hne
      | some e => exact ⟨e, rfl⟩
    have hbody := event_in_body_ok t r.key r.key_len r.thresh r.hasCb r.timeout r.priv r.now e
      hkl he
    have hlen' : rest.length ≤ (t.free.dropLast).length := by
      rw [List.length_dropLast]
      simp only [List.length_cons] at hlen
      omega
    have ih' := ih { t with ht := (openStamp t r.key r.key_len r.thresh r.hasCb r.timeout
                                    r.priv r.now e :: t.ht),
                            free := t.free.dropLast }
      (fun x hx => hreq x (List.mem_cons_of_mem r hx)) hlen'
    refine ⟨?_, ?_, ?_, ?_⟩
    · intro ret hret
      simp only [openSeq, hu, hbody] at hret
      rcases List.mem_cons.mp hret with rfl | hret'
      · rfl
      · exact ih'.1 ret hret'
    · simp only [openSeq, hu, hbody]
      rw [ih'.2.1]
      simp only [List.length_dropLast, List.length_cons]
      omega
    · simp only [openSeq, hu, hbody]
      rw [ih'.2.2.1]
      simp only [List.length_cons]
      omega
    · intro hwf
      simp only [openSeq, hu, hbody]
      refine ih'.2.2.2 ?_
      unfold WellFormed at hwf ⊢
      exact (recordIds_perm_open t e _ rfl he).nodup_iff.mpr hwf

/-! ### Claim C3 -/

/-- C3: `latency_tracker_create` assigns the default hash (`jhash`) and
match (`memcmp`) functions only when the corresponding argument is NULL;
when the caller supplies a function, nothing is ever assigned, leaving
the zero-initialized (NULL) pointer in place — so a supplied function is
never the one the tracker uses, contradicting the claim.  The first two
conjuncts evaluate the code at the failing input (both functions
supplied); the last two show the default path. -/
theorem create_stores_functions (m : MatchFn) (h : HashFn) (n p g pr : Nat) :
    (latency_tracker_create (some m) (some h) n p g pr).hash_fct = none ∧
    (latency_tracker_create (some m) (some h) n p g pr).match_fct = none ∧
    (latency_tracker_create none none n p g pr).hash_fct = some jhashModel ∧
    (latency_tracker_create none none n p g pr).match_fct = some memcmpModel :=
  ⟨rfl, rfl, rfl, rfl⟩

/-! ### Claim C9 -/

/-- C9: an `open_event` call whose `key_len` exceeds
`LATENCY_TRACKER_MAX_KEY_SIZE` is rejected with the error return
(`LATENCY_TRACKER_ERR`, the spec's `INVALID`) before anything is done:
the tracker state is returned unchanged (same index, same pool, no timer
armed on any record) and no callback is invoked. -/
theorem open_event_invalid (t : Tracker) (key : List Nat) (kl th : Nat) (cb : Bool)
    (tmo : Nat) (uniq : Bool) (prv now : Nat)
    (hkl : kl > LATENCY_TRACKER_MAX_KEY_SIZE) :
    latency_tracker_event_in (some t) key kl th cb tmo uniq prv now
      = (some t, .err, []) := by
  simp [latency_tracker_event_in, latency_tracker_event_in_body, hkl]

/-- Witness: a 129-byte key on the concrete tracker `tW` is rejected with
no state change. -/
theorem open_event_invalid_witness :
    latency_tracker_event_in (some tW) (List.replicate 129 1) 129 5 true 0 false 0 50
      = (some tW, .err, []) ∧ 129 > LATENCY_TRACKER_MAX_KEY_SIZE :=
  ⟨open_event_invalid tW (List.replicate 129 1) 129 5 true 0 false 0 50 (by decide), by decide⟩

/-! ### Claim C10 -/

/-- C10: called on a NULL tracker, `latency_tracker_event_in` returns the
error code and `latency_tracker_event_out` returns `-1` (not found),
without any tracker to dereference or mutate and with no callback
invoked. -/
theorem null_tracker_rejected (key : List Nat) (kl th tmo prv now id : Nat)
    (cb uniq : Bool) :
    latency_tracker_event_in none key kl th cb tmo uniq prv now = (none, .err, []) ∧
    latency_tracker_event_out none key kl id now = (none, -1, []) :=
  ⟨rfl, rfl⟩

/-! ### Claim C4 -/

theorem check_found_free_ne (t : Tracker) (key : List Nat) (kl id now : Nat)
    (hf : (wrapper_ht_check_event t key kl id now).2.1 = true) :
    (wrapper_ht_check_event t key kl id now).1.free ≠ [] := by
  rw [check_event_found] at hf
  rw [check_event_free]
  obtain ⟨s, hs, hcm⟩ := List.any_eq_true.mp hf
  intro hcontra
  have hmem : zeroEvent s.id
      ∈ ((t.ht.filter (closeMatch t.match_fct (hashKey t key kl) key kl)).map
          (fun s => zeroEvent s.id)).reverse ++ t.free :=
    List.mem_append_left _ (List.mem_reverse.mpr
      (List.mem_map_of_mem _ (List.mem_filter.mpr ⟨hs, hcm⟩)))
  rw [hcontra] at hmem
  cases hmem

theorem event_in_ok_of_free_ne (t : Tracker) (key : List Nat) (kl th : Nat) (cb : Bool)
    (tmo prv now : Nat) (hkl : kl ≤ LATENCY_TRACKER_MAX_KEY_SIZE) (hfree : t.free ≠ []) :
    (latency_tracker_event_in (some t) key kl th cb tmo false prv now).2.1
      = EventInRet.ok := by
  obtain ⟨e, he⟩ : ∃ e, t.free.getLast? = some e := by
    cases hfl : t.free.getLast? with
    | none => exact absurd (List.getLast?_eq_none_iff.mp hfl) hfree
    | some e => exact ⟨e, rfl⟩
  simp [latency_tracker_event_in, event_in_body_ok t key kl th cb tmo prv now e hkl he]

/-- C4: capacity bound.  A tracker created with `max_events = C` (with
`C ≠ 0`) preallocates exactly `C` pool records, and a zero `max_events`
falls back to the default capacity 100 (first two conjuncts).  From any
tracker whose pool holds `C` free records, any `C` non-unique opens with
valid key sizes all return `OK`; afterwards the pool is empty and the
next such open returns `FULL` with the tracker state returned unchanged
and no callback invoked; and as soon as one `close_event` retires an
event (returns `0`), the next open succeeds again. -/
theorem capacity_bound (C p g pr : Nat) (hC : C ≠ 0) :
    (latency_tracker_create none none C p g pr).free.length = C ∧
    (latency_tracker_create none none 0 p g pr).free.length = DEFAULT_MAX_ALLOC_EVENTS ∧
    (∀ (t0 : Tracker), t0.free.length = C →
      ∀ reqs : List OpenReq, reqs.length = C →
        (∀ r ∈ reqs, r.unique = false ∧ r.key_len ≤ LATENCY_TRACKER_MAX_KEY_SIZE) →
        (∀ ret ∈ (openSeq t0 reqs).2, ret = EventInRet.ok) ∧
        (∀ (key : List Nat) (kl th : Nat) (cb : Bool) (tmo prv now : Nat),
          kl ≤ LATENCY_TRACKER_MAX_KEY_SIZE →
          latency_tracker_event_in (some (openSeq t0 reqs).1) key kl th cb tmo false prv now
            = (some (openSeq t0 reqs).1, .full, [])) ∧
        (∀ (key : List Nat) (kl id now : Nat) (t' : Tracker) (r : Int) (c : List Event),
          latency_tracker_event_out (some (openSeq t0 reqs).1) key kl id now
            = (some t', r, c) →
          r = 0 →
          ∀ (key2 : List Nat) (kl2 th2 : Nat) (cb2 : Bool) (tmo2 prv2 now2 : Nat),
            kl2 ≤ LATENCY_TRACKER_MAX_KEY_SIZE →
            (latency_tracker_event_in (some t') key2 kl2 th2 cb2 tmo2 false prv2 now2).2.1
              = EventInRet.ok)) := by
  refine ⟨(by simp [latency_tracker_create, hC]), (by simp [latency_tracker_create]), ?_⟩
  intro t0 hlen0 reqs hreqs hreq
  have hspec := openSeq_spec reqs t0 hreq (by omega)
  have hempty : (openSeq t0 reqs).1.free = [] := by
    rw [← List.length_eq_zero, hspec.2.1, hlen0, hreqs]
    omega
  refine ⟨hspec.1, ?_, ?_⟩
  · intro key kl th cb tmo prv now hkl
    simp [latency_tracker_event_in,
      event_in_body_full (openSeq t0 reqs).1 key kl th cb tmo prv now hkl hempty]
  · intro key kl id now t' r c hout hr key2 kl2 th2 cb2 tmo2 prv2 now2 hkl2
    simp only [latency_tracker_event_out] at hout
    have ht' : t' = (wrapper_ht_check_event (openSeq t0 reqs).1 key kl id now).1 := by
      have := congrArg Prod.fst hout
      simpa using this.symm
    have hfound : (wrapper_ht_check_event (openSeq t0 reqs).1 key kl id now).2.1 = true := by
      by_contra hnf
      have hfalse : (wrapper_ht_check_event (openSeq t0 reqs).1 key kl id now).2.1 = false :=
        Bool.eq_false_iff.mpr hnf
      have hr' := congrArg (fun q => q.2.1) hout
      simp only [hfalse] at hr'
      rw [hr] at hr'
      simp at hr'
    exact event_in_ok_of_free_ne t' key2 kl2 th2 cb2 tmo2 prv2 now2 hkl2
      (ht' ▸ check_found_free_ne (openSeq t0 reqs).1 key kl id now hfound)

/-- Witness: with capacity 1, one open fills the pool, the next open
returns `FULL` with the state unchanged, and after closing the first key
the next open returns `OK` again. -/
theorem capacity_bound_witness :
    ((latency_tracker_create none none 1 0 0 0).free.length = 1) ∧
    (latency_tracker_event_in (some (openSeq tCap [reqW]).1) [4] 1 5 true 0 false 0 20
        = (some (openSeq tCap [reqW]).1, .full, [])) ∧
    ((latency_tracker_event_in
        (some (wrapper_ht_check_event (openSeq tCap [reqW]).1 [1, 2, 3] 3 0 99).1)
        [4] 1 5 true 0 false 0 120).2.1 = EventInRet.ok) := by
  obtain ⟨h1, _, h3⟩ := capacity_bound 1 0 0 0 (by decide)
  obtain ⟨_, hfull, hclose⟩ := h3 tCap (by decide) [reqW] (by decide) (by decide)
  refine ⟨h1, hfull [4] 1 5 true 0 0 20 (by decide), ?_⟩
  exact hclose [1, 2, 3] 3 0 99
    (wrapper_ht_check_event (openSeq tCap [reqW]).1 [1, 2, 3] 3 0 99).1 0
    (wrapper_ht_check_event (openSeq tCap [reqW]).1 [1, 2, 3] 3 0 99).2.2
    rfl rfl [4] 1 5 true 0 0 120 (by decide)

/-! ### Claim C8 -/

/-- C8: destroying a tracker with `N` events still in the index (whose
record addresses are distinct) retires them all — the index is emptied
and every record is released zeroed to the pool — invokes no user
callback, and reports exactly `N` as the number of events still pending
at destruction; in particular, after opening `reqs.length` events on an
empty-index tracker with sufficient pool capacity and closing none,
destroy reports exactly `reqs.length`. -/
theorem destroy_accounting (t : Tracker) (hnd : (t.ht.map Event.id).Nodup) :
    latency_tracker_destroy t = (t.ht.length, []) ∧
    (wrapper_ht_clear t).1.ht = [] ∧
    (wrapper_ht_clear t).1.free
        = (t.ht.map (fun s => zeroEvent s.id)).reverse ++ t.free ∧
    (∀ reqs : List OpenReq, t.ht = [] →
      (∀ r ∈ reqs, r.unique = false ∧ r.key_len ≤ LATENCY_TRACKER_MAX_KEY_SIZE) →
      reqs.length ≤ t.free.length →
      latency_tracker_destroy (openSeq t reqs).1 = (reqs.length, [])) := by
  refine ⟨?_, clear_ht_empty t hnd, ?_, ?_⟩
  · simp [latency_tracker_destroy, wrapper_ht_clear, clear_loop_count]
  · rw [wrapper_ht_clear]
    exact clear_loop_free t.ht t
  · intro reqs hht hreq hlen
    have hspec := openSeq_spec reqs t hreq hlen
    have hlen2 : (openSeq t reqs).1.ht.length = reqs.length := by
      rw [hspec.2.2.1, hht]
      simp
    simp [latency_tracker_destroy, wrapper_ht_clear, clear_loop_count, hlen2]

/-- Witness: destroying the concrete tracker `tW` (one open event)
reports one pending event and no callback; opening one event on the
concrete empty tracker `tCap` and destroying reports one. -/
theorem destroy_accounting_witness :
    latency_tracker_destroy tW = (1, []) ∧
    (wrapper_ht_clear tW).1.ht = [] ∧
    latency_tracker_destroy (openSeq tCap [reqW]).1 = (1, []) := by
  obtain ⟨h1, h2, _, _⟩ := destroy_accounting tW (by decide)
  obtain ⟨_, _, _, h4⟩ := destroy_accounting tCap (by decide)
  exact ⟨by rw [h1]; rfl, h2, by simpa using h4 [reqW] rfl (by decide) (by decide)⟩

/-! ### Claim C7 -/

theorem dupStamp_id (s : Event) : (dupStamp s).id = s.id := rfl

theorem dupStamp_hasCb (s : Event) : (dupStamp s).hasCb = s.hasCb := rfl

theorem unique_check_loop_none (mf : MatchFn) (key : List Nat) (kl : Nat) :
    ∀ (l : List Event) (t : Tracker), t.match_fct = mf →
      l.find? (keyMatch mf key kl) = none →
      unique_check_loop key kl l t = (t, []) := by
  intro l
  induction l with
  | nil => intro t _ _; rfl
  | cons s rest ih =>
    intro t ht hn
    rw [List.find?_eq_none] at hn
    have hm : ¬(mf key s.key kl = 0) := by
      intro h0
      exact hn s (List.mem_cons_self s rest) (by simp [keyMatch, h0])
    simp only [unique_check_loop, ht]
    rw [if_neg hm]
    exact ih t ht (List.find?_eq_none.mpr (fun x hx => hn x (List.mem_cons_of_mem s hx)))

theorem unique_check_loop_some (mf : MatchFn) (key : List Nat) (kl : Nat) :
    ∀ (l : List Event) (t : Tracker) (m : Event), t.match_fct = mf →
      l.find? (keyMatch mf key kl) = some m →
      unique_check_loop key kl l t
        = (latency_tracker_event_destroy t (dupStamp m),
           if m.hasCb then [dupStamp m] else []) := by
  intro l
  induction l with
  | nil => intro t m _ hn; cases hn
  | cons s rest ih =>
    intro t m ht hn
    by_cases hs : keyMatch mf key kl s = true
    · rw [List.find?_cons_of_pos rest hs] at hn
      injection hn with hn
      subst hn
      have hm : mf key s.key kl = 0 := by
        have hb := hs
        simp only [keyMatch, beq_iff_eq] at hb
        exact hb
      simp only [unique_check_loop, ht]
      rw [if_pos hm]
      simp [dupStamp_hasCb]
    · rw [List.find?_cons_of_neg rest hs] at hn
      have hm : ¬(mf key s.key kl = 0) := by
        intro h0
        exact hs (by simp [keyMatch, h0])
      simp only [unique_check_loop, ht]
      rw [if_neg hm]
      exact ih t m ht hn

/-- C7: on an open with `unique` set whose key size is valid, if the
bucket chain for `hash_fct(key)` contains an event whose full key matches
(`m` is the first such event in chain order), then the unique check —
which runs before any pool allocation — retires `m`: it is detached from
the index and its zeroed record is released to the pool, its `cb_flag` is
set to `LATENCY_TRACKER_CB_UNIQUE` (the spec's `DUPLICATE_KEY`) and its
callback is invoked when non-NULL (first conjunct); and the open itself
then succeeds, returning `OK`, with exactly that eviction callback
reported (remaining conjuncts). -/
theorem unique_eviction_contract (t : Tracker) (key : List Nat) (kl th : Nat) (cb : Bool)
    (tmo prv now : Nat) (m : Event)
    (hkl : kl ≤ LATENCY_TRACKER_MAX_KEY_SIZE)
    (hm : (t.ht.filter (fun s => s.hkey == hashKey t key kl)).find?
            (keyMatch t.match_fct key kl) = some m) :
    wrapper_ht_unique_check t key kl
      = ({ t with ht := htDel t.ht m.id, free := (zeroEvent m.id :: t.free) },
         if m.hasCb then [dupStamp m] else []) ∧
    (latency_tracker_event_in (some t) key kl th cb tmo true prv now).2.1
        = EventInRet.ok ∧
    (latency_tracker_event_in (some t) key kl th cb tmo true prv now).2.2
        = (if m.hasCb then [dupStamp m] else []) := by
  have huc : wrapper_ht_unique_check t key kl
      = (latency_tracker_event_destroy t (dupStamp m),
         if m.hasCb then [dupStamp m] else []) := by
    simp only [wrapper_ht_unique_check]
    exact unique_check_loop_some t.match_fct key kl _ t m rfl hm
  obtain ⟨e, he⟩ : ∃ e, (zeroEvent m.id :: t.free).getLast? = some e := by
    cases hfl : (zeroEvent m.id :: t.free).getLast? with
    | none =>
      exact absurd (List.getLast?_eq_none_iff.mp hfl) (by simp)
    | some e => exact ⟨e, rfl⟩
  refine ⟨huc, ?_, ?_⟩ <;>
    simp [latency_tracker_event_in, latency_tracker_event_in_body, Nat.not_lt.mpr hkl,
      huc, latency_tracker_get_event, destroy_free, dupStamp_id, he, wrapper_ht_add]

/-- Witness: on the concrete tracker `tW`, a unique open of the already
present key `[1, 2, 3]` evicts `evW 0` with the duplicate stamp and still
returns `OK`. -/
theorem unique_eviction_contract_witness :
    wrapper_ht_unique_check tW [1, 2, 3] 3
      = ({ tW with ht := htDel tW.ht (evW 0).id,
                   free := (zeroEvent (evW 0).id :: tW.free) },
         if (evW 0).hasCb then [dupStamp (evW 0)] else []) ∧
    (latency_tracker_event_in (some tW) [1, 2, 3] 3 7 true 0 true 0 50).2.1
        = EventInRet.ok ∧
    (latency_tracker_event_in (some tW) [1, 2, 3] 3 7 true 0 true 0 50).2.2
        = [dupStamp (evW 0)] := by
  obtain ⟨h1, h2, h3⟩ := unique_eviction_contract tW [1, 2, 3] 3 7 true 0 0 50 (evW 0)
    (by decide) (by decide)
  exact ⟨h1, h2, by simpa using h3⟩

/-! ### Claim C6 -/

theorem find?_id_of_mem (l : List Event) (e : Event)
    (hnd : (l.map Event.id).Nodup) (he : e ∈ l) :
    l.find? (fun s => s.id == e.id) = some e := by
  induction l with
  | nil => cases he
  | cons s rest ih =>
    simp only [List.map_cons, List.nodup_cons] at hnd
    rcases List.mem_cons.mp he with rfl | he'
    · rw [List.find?_cons_of_pos rest (by simp)]
    · have hne : ¬((fun s : Event => s.id == e.id) s = true) := by
        simp only [beq_iff_eq]
        intro hc
        exact hnd.1 (hc ▸ List.mem_map_of_mem Event.id he')
      rw [List.find?_cons_of_neg rest hne]
      exact ih hnd.2 he'

/-- C6: when the pending per-event timer of an indexed event `e` (opened
with a nonzero `timeout`) fires, the record is updated in place —
`cb_flag` becomes `LATENCY_TRACKER_CB_TIMEOUT`, `timeout` is cleared to
zero, the timer is disarmed — and the user callback is invoked once on
exactly that updated record; but the firing changes neither the pool
(the free list is untouched) nor the index membership (the record
addresses in the index are unchanged — the event is not detached and no
record is released). -/
theorem timeout_fire_contract (t : Tracker) (e : Event)
    (hnd : (t.ht.map Event.id).Nodup) (he : e ∈ t.ht) (_htm : e.timeout ≠ 0) :
    tracker_timeout_fire t e.id
      = ({ t with ht := t.ht.map (fun s =>
            if s.id == e.id then (latency_tracker_timeout_cb e).1 else s) },
         [(latency_tracker_timeout_cb e).1]) ∧
    (latency_tracker_timeout_cb e).1.cb_flag = CbFlag.timeout_fired ∧
    (latency_tracker_timeout_cb e).1.timeout = 0 ∧
    (latency_tracker_timeout_cb e).1.id = e.id ∧
    (latency_tracker_timeout_cb e).1.key = e.key ∧
    (tracker_timeout_fire t e.id).1.free = t.free ∧
    (tracker_timeout_fire t e.id).1.ht.map Event.id = t.ht.map Event.id := by
  have hfind := find?_id_of_mem t.ht e hnd he
  have hmain : tracker_timeout_fire t e.id
      = ({ t with ht := t.ht.map (fun s =>
            if s.id == e.id then (latency_tracker_timeout_cb e).1 else s) },
         [(latency_tracker_timeout_cb e).1]) := by
    simp only [tracker_timeout_fire, hfind, latency_tracker_timeout_cb]
  refine ⟨hmain, rfl, rfl, rfl, rfl, ?_, ?_⟩
  · rw [hmain]
  · rw [hmain]
    simp only [List.map_map]
    refine List.map_congr_left ?_
    intro a _
    by_cases ha : a.id = e.id
    · simp [Function.comp, ha, latency_tracker_timeout_cb]
    · simp [Function.comp, ha]

/-- Witness: firing the timeout of the concrete timed event `evT` in
tracker `tT` stamps it `TIMEOUT`, clears the timeout, invokes the
callback once, and leaves the free list and the set of indexed record
addresses unchanged. -/
theorem timeout_fire_contract_witness :
    (tracker_timeout_fire tT evT.id).1.free = tT.free ∧
    (tracker_timeout_fire tT evT.id).1.ht.map Event.id = tT.ht.map Event.id ∧
    (tracker_timeout_fire tT evT.id).2 = [(latency_tracker_timeout_cb evT).1] ∧
    (latency_tracker_timeout_cb evT).1.cb_flag = CbFlag.timeout_fired ∧
    (latency_tracker_timeout_cb evT).1.timeout = 0 := by
  obtain ⟨h1, h2, h3, _, _, h6, h7⟩ :=
    timeout_fire_contract tT evT (by decide) (by decide) (by decide)
  exact ⟨h6, h7, by rw [h1], h2, h3⟩

/-! ### Claim C1 -/

theorem not_mem_ids_filter (l : List Event) (p : Event → Bool) (r : Nat)
    (h : r ∉ l.map Event.id) : r ∉ (l.filter p).map Event.id := by
  intro hc
  obtain ⟨x, hx, hxid⟩ := List.mem_map.mp hc
  exact h (hxid ▸ List.mem_map_of_mem Event.id (List.mem_filter.mp hx).1)

theorem htDel_sublist : ∀ (l : List Event) (i : Nat), (htDel l i).Sublist l := by
  intro l
  induction l with
  | nil => intro i; simp [htDel]
  | cons s rest ih =>
    intro i
    simp only [htDel]
    by_cases hs : s.id = i
    · rw [if_pos hs]
      exact List.sublist_cons_self s rest
    · rw [if_neg hs]
      exact (ih i).cons₂ s

theorem not_mem_ids_htDel (l : List Event) (i r : Nat)
    (h : r ∉ l.map Event.id) : r ∉ (htDel l i).map Event.id :=
  fun hc => h (((htDel_sublist l i).map Event.id).subset hc)

theorem count_id_append (zs fr : List Event) (r : Nat) (h : ∀ z ∈ zs, ¬z.id = r) :
    ((zs ++ fr).filter (fun e => e.id == r)).length
      = (fr.filter (fun e => e.id == r)).length := by
  rw [List.filter_append, List.filter_eq_nil_iff.mpr (fun a ha => by simpa using h a ha)]
  simp

theorem zeros_of_ids_ne (l : List Event) (p : Event → Bool) (r : Nat)
    (h : r ∉ l.map Event.id) :
    ∀ z ∈ ((l.filter p).map (fun s => zeroEvent s.id)).reverse, ¬z.id = r := by
  intro z hz
  rw [List.mem_reverse] at hz
  obtain ⟨x, hx, rfl⟩ := List.mem_map.mp hz
  intro hc
  have hc' : x.id = r := hc
  exact h (hc' ▸ List.mem_map_of_mem Event.id (List.mem_filter.mp hx).1)

theorem check_event_loop_fns (key : List Nat) (kl id now : Nat) :
    ∀ (l : List Event) (t : Tracker),
      (check_event_loop key kl id now l t).1.match_fct = t.match_fct ∧
      (check_event_loop key kl id now l t).1.hash_fct = t.hash_fct := by
  intro l
  induction l with
  | nil => intro t; exact ⟨rfl, rfl⟩
  | cons s rest ih =>
    intro t
    simp only [check_event_loop]
    by_cases hm : t.match_fct key s.key kl = 0
    · rw [if_pos hm]
      by_cases hf : u64sub now s.start_ts > s.thresh
      · simpa [hf] using ih (latency_tracker_event_destroy t (closeStamp now id s))
      · simpa [hf] using ih (latency_tracker_event_destroy t s)
    · rw [if_neg hm]
      exact ih t

theorem check_event_loop_no_match (key : List Nat) (kl id now : Nat) :
    ∀ (l : List Event) (t : Tracker),
      (∀ s ∈ l, ¬(t.match_fct key s.key kl = 0)) →
      check_event_loop key kl id now l t = (t, false, []) := by
  intro l
  induction l with
  | nil => intro t _; rfl
  | cons s rest ih =>
    intro t h
    simp only [check_event_loop]
    rw [if_neg (h s (List.mem_cons_self s rest))]
    exact ih t (fun x hx => h x (List.mem_cons_of_mem s hx))

theorem check_event_no_match_state (t : Tracker) (key : List Nat) (kl id now : Nat)
    (h : ∀ s ∈ t.ht, closeMatch t.match_fct (hashKey t key kl) key kl s = false) :
    wrapper_ht_check_event t key kl id now = (t, false, []) := by
  simp only [wrapper_ht_check_event]
  refine check_event_loop_no_match key kl id now _ t ?_
  intro s hs hm
  have hs' := List.mem_filter.mp hs
  have hcm := h s hs'.1
  simp only [closeMatch, inBucket, keyMatch, Bool.and_eq_false_iff] at hcm
  rcases hcm with hcm | hcm
  · rw [hs'.2] at hcm
    cases hcm
  · rw [beq_eq_false_iff_ne] at hcm
    exact hcm (by simpa using hm)

/-- C1: at-most-once retirement.  Take any record address `r` that is
not (or no longer) in the index — in particular one whose event was
already retired by close, GC, duplicate-key eviction or destroy.  Then
none of the four retirement triggers touches that record again: an
explicit close, a GC sweep, a unique check and a destroy sweep all leave
`r` out of the index and leave the number of copies of record `r` on the
free list unchanged, so no double release can occur (first four
conjuncts).  Moreover a close performed after a close of the same key
finds nothing: it returns `-1` ("not found"), leaves the tracker
untouched and invokes no callback, and likewise any close after a GC
sweep (last two conjuncts). -/
theorem at_most_once_retirement (t : Tracker) (r : Nat)
    (hnd : (t.ht.map Event.id).Nodup)
    (hr : r ∉ t.ht.map Event.id) :
    (∀ (key : List Nat) (kl id now : Nat),
      r ∉ (wrapper_ht_check_event t key kl id now).1.ht.map Event.id ∧
      freeCount (wrapper_ht_check_event t key kl id now).1 r = freeCount t r) ∧
    (∀ now : Nat,
      r ∉ (wrapper_ht_gc t now).1.ht.map Event.id ∧
      freeCount (wrapper_ht_gc t now).1 r = freeCount t r) ∧
    (∀ (key : List Nat) (kl : Nat),
      r ∉ (wrapper_ht_unique_check t key kl).1.ht.map Event.id ∧
      freeCount (wrapper_ht_unique_check t key kl).1 r = freeCount t r) ∧
    (r ∉ (wrapper_ht_clear t).1.ht.map Event.id ∧
      freeCount (wrapper_ht_clear t).1 r = freeCount t r) ∧
    (∀ (key : List Nat) (kl id now : Nat) (t' : Tracker) (ret : Int) (c : List Event),
      latency_tracker_event_out (some t) key kl id now = (some t', ret, c) →
      ∀ (id2 now2 : Nat),
        latency_tracker_event_out (some t') key kl id2 now2 = (some t', -1, [])) ∧
    (∀ (now : Nat) (key : List Nat) (kl id2 now2 : Nat),
      latency_tracker_event_out (some (wrapper_ht_gc t now).1) key kl id2 now2
        = (some (wrapper_ht_gc t now).1, -1, [])) := by
  have hgc_ht : ∀ now : Nat, (wrapper_ht_gc t now).1.ht = [] := by
    intro now
    rw [wrapper_ht_gc, gc_loop_ht now t.ht t hnd, List.filter_eq_nil_iff]
    intro s hs
    simp only [Bool.not_eq_true', Bool.not_eq_false]
    rw [List.any_eq_true]
    exact ⟨s, hs, by simp⟩
  refine ⟨?_, ?_, ?_, ?_, ?_, ?_⟩
  · intro key kl id now
    constructor
    · rw [check_event_ht t key kl id now hnd]
      exact not_mem_ids_filter t.ht _ r hr
    · unfold freeCount
      rw [check_event_free t key kl id now]
      exact count_id_append _ t.free r (zeros_of_ids_ne t.ht _ r hr)
  · intro now
    constructor
    · rw [hgc_ht now]
      simp
    · unfold freeCount
      rw [wrapper_ht_gc, gc_loop_free now t.ht t]
      refine count_id_append _ t.free r ?_
      intro z hz
      rw [List.mem_reverse] at hz
      obtain ⟨x, hx, rfl⟩ := List.mem_map.mp hz
      intro hc
      have hc' : x.id = r := hc
      exact hr (hc' ▸ List.mem_map_of_mem Event.id hx)
  · intro key kl
    cases hfind : (t.ht.filter (fun s => s.hkey == hashKey t key kl)).find?
        (keyMatch t.match_fct key kl) with
    | none =>
      have huc : wrapper_ht_unique_check t key kl = (t, []) := by
        simp only [wrapper_ht_unique_check]
        exact unique_check_loop_none t.match_fct key kl _ t rfl hfind
      rw [huc]
      exact ⟨hr, rfl⟩
    | some m =>
      have hmht : m ∈ t.ht :=
        (List.mem_filter.mp (List.mem_of_find?_eq_some hfind)).1
      have hmr : ¬m.id = r := by
        intro hc
        exact hr (hc ▸ List.mem_map_of_mem Event.id hmht)
      have huc : wrapper_ht_unique_check t key kl
          = (latency_tracker_event_destroy t (dupStamp m),
             if m.hasCb then [dupStamp m] else []) := by
        simp only [wrapper_ht_unique_check]
        exact unique_check_loop_some t.match_fct key kl _ t m rfl hfind
      rw [huc]
      constructor
      · rw [destroy_ht, dupStamp_id]
        exact not_mem_ids_htDel t.ht m.id r hr
      · unfold freeCount
        rw [destroy_free, dupStamp_id]
        rw [List.filter_cons, if_neg (by simpa using hmr)]
  · constructor
    · rw [clear_ht_empty t hnd]
      simp
    · unfold freeCount
      rw [wrapper_ht_clear, clear_loop_free t.ht t]
      refine count_id_append _ t.free r ?_
      intro z hz
      rw [List.mem_reverse] at hz
      obtain ⟨x, hx, rfl⟩ := List.mem_map.mp hz
      intro hc
      have hc' : x.id = r := hc
      exact hr (hc' ▸ List.mem_map_of_mem Event.id hx)
  · intro key kl id now t' ret c hout id2 now2
    have ht' : t' = (wrapper_ht_check_event t key kl id now).1 := by
      have hfst := congrArg Prod.fst hout
      simpa [latency_tracker_event_out] using hfst.symm
    have hfns := check_event_loop_fns key kl id now
      (t.ht.filter (fun s => s.hkey == hashKey t key kl)) t
    have hmf : t'.match_fct = t.match_fct := by
      rw [ht']
      exact hfns.1
    have hhf : t'.hash_fct = t.hash_fct := by
      rw [ht']
      exact hfns.2
    have hk : hashKey t' key kl = hashKey t key kl := by
      unfold hashKey
      rw [hhf]
    have hnone : ∀ s ∈ t'.ht,
        closeMatch t'.match_fct (hashKey t' key kl) key kl s = false := by
      intro s hs
      rw [ht', check_event_ht t key kl id now hnd] at hs
      have hs' := List.mem_filter.mp hs
      have hsneg := hs'.2
      rw [Bool.not_eq_true', ← hmf, ← hk] at hsneg
      exact hsneg
    have hcheck := check_event_no_match_state t' key kl id2 now2 hnone
    simp [latency_tracker_event_out, hcheck]
  · intro now key kl id2 now2
    have hnone : ∀ s ∈ (wrapper_ht_gc t now).1.ht,
        closeMatch (wrapper_ht_gc t now).1.match_fct
          (hashKey (wrapper_ht_gc t now).1 key kl) key kl s = false := by
      rw [hgc_ht now]
      intro s hs
      cases hs
    have hcheck := check_event_no_match_state (wrapper_ht_gc t now).1 key kl id2 now2 hnone
    simp [latency_tracker_event_out, hcheck]

/-- Witness: on the concrete tracker `tW`, the record address 5 is not in
the index; a close, a GC sweep, a unique check and a destroy all leave
its free-list count (zero) unchanged and keep it out of the index, and a
second close of key `[1, 2, 3]` after the first reports "not found" with
no state change and no callback. -/
theorem at_most_once_retirement_witness :
    (5 ∉ (wrapper_ht_check_event tW [1, 2, 3] 3 9 100).1.ht.map Event.id ∧
      freeCount (wrapper_ht_check_event tW [1, 2, 3] 3 9 100).1 5 = freeCount tW 5) ∧
    (5 ∉ (wrapper_ht_gc tW 100).1.ht.map Event.id ∧
      freeCount (wrapper_ht_gc tW 100).1 5 = freeCount tW 5) ∧
    (5 ∉ (wrapper_ht_clear tW).1.ht.map Event.id ∧
      freeCount (wrapper_ht_clear tW).1 5 = freeCount tW 5) ∧
    (latency_tracker_event_out
        (some (wrapper_ht_check_event tW [1, 2, 3] 3 9 100).1) [1, 2, 3] 3 8 200
      = (some (wrapper_ht_check_event tW [1, 2, 3] 3 9 100).1, -1, [])) := by
  obtain ⟨h1, h2, _, h4, h5, _⟩ := at_most_once_retirement tW 5 (by decide) (by decide)
  refine ⟨h1 [1, 2, 3] 3 9 100, h2 100, h4, ?_⟩
  exact h5 [1, 2, 3] 3 9 100 (wrapper_ht_check_event tW [1, 2, 3] 3 9 100).1 0
    (wrapper_ht_check_event tW [1, 2, 3] 3 9 100).2.2 rfl 8 200

end LatencyTracker
